import Mathlib

/-!
# Verification of `sjtu::vector` (src/src/vector.hpp)

A shallow embedding of the dynamic-array container in `src/src/vector.hpp`.
The buffer's live prefix (slots `[0, size)`) is modelled as a `List α`; the
uninitialized tail `[size, capacity)` is never read by the source, so only
`capacity` itself is kept as a number.  Loops that shift elements with
element-wise assignment are translated as fuelled recursions over `List.set`,
mirroring the source's iteration order, and loops that copy-construct into a
fresh buffer are translated as `take`/`drop` concatenations in the same order.
Exceptions become an explicit error type threaded through `Except` or,
for operations whose claims speak about the state after an error, a
result-and-post-state pair.  Iterators become (offset, container-identity)
pairs; the container identity stands for the `this` pointer stored in the
iterator's `vec_` field.
-/

namespace sjtu

/-- The three exception kinds thrown by `vector.hpp` (declared in the
repository's `exceptions.hpp`, included at the top of `vector.hpp`):
`index_out_of_bound`, `container_is_empty`, `invalid_iterator`.  Only their
identities matter to the container's contract. -/
inductive VecError : Type where
  | index_out_of_bound : VecError
  | container_is_empty : VecError
  | invalid_iterator : VecError
deriving DecidableEq

/-- The container state: `data` is the live element region (slots
`[0, size)` of the C++ buffer, in index order), `capacity` the number of
reserved slots.  `size` of the C++ object is `data.length`. -/
structure vector (α : Type) : Type where
  data : List α
  capacity : Nat
deriving DecidableEq

namespace vector

variable {α : Type} [Inhabited α]

/-- Member `size()`: returns `size_`. -/
def size (v : vector α) : Nat :=
  v.data.length

/-- Member `empty()`: returns `size_ == 0`. -/
def empty (v : vector α) : Bool :=
  v.data.length == 0

/-- Default constructor `vector()`: `data_ = nullptr, size_ = 0,
capacity_ = 0`. -/
def mk0 : vector α :=
  ⟨[], 0⟩

/-- Mutable iterator: `ptr_` is modelled as the slot offset `ptr_ - data_`
(an integer, since iterator arithmetic is unchecked), `vec` is the identity
of the originating container (the `vec_` back-pointer). -/
structure iterator : Type where
  ptr : Int
  vec : Nat
deriving DecidableEq

/-- Read-only iterator `const_iterator`: same representation. -/
structure const_iterator : Type where
  ptr : Int
  vec : Nat
deriving DecidableEq

/-- Member `iterator::operator-(const iterator&)`: throws `invalid_iterator` when
the two iterators carry different containers, otherwise returns the pointer
difference `ptr_ - rhs.ptr_` in slots. -/
def iterator.sub (a b : iterator) : Except VecError Int :=
  if a.vec ≠ b.vec then .error .invalid_iterator
  else .ok (a.ptr - b.ptr)

/-- Member `const_iterator::operator-(const const_iterator&)`: same check and
result as the mutable variant. -/
def const_iterator.sub (a b : const_iterator) : Except VecError Int :=
  if a.vec ≠ b.vec then .error .invalid_iterator
  else .ok (a.ptr - b.ptr)

/-- Member `begin()`: `iterator(data_, this)` — offset 0, carrying the container's
identity `id`. -/
def begin (id : Nat) (_v : vector α) : iterator :=
  ⟨0, id⟩

/-- Member `end()`: `iterator(data_ + size_, this)`. -/
def end' (id : Nat) (v : vector α) : iterator :=
  ⟨(v.data.length : Int), id⟩

/-- Member `cbegin()`: `const_iterator(data_, this)`. -/
def cbegin (id : Nat) (_v : vector α) : const_iterator :=
  ⟨0, id⟩

/-- Member `cend()`: `const_iterator(data_ + size_, this)`. -/
def cend (id : Nat) (v : vector α) : const_iterator :=
  ⟨(v.data.length : Int), id⟩

/-- Member `at(pos)` (both the mutable and the `const` overload have this exact
body): if `pos >= size_` throw `index_out_of_bound`, else return
`data_[pos]`.  The second component is the container state on return, which
the body never touches. -/
def at' (v : vector α) (pos : Nat) : Except VecError α × vector α :=
  if pos ≥ v.data.length then (.error .index_out_of_bound, v)
  else (.ok (v.data.getD pos default), v)

/-- Member `operator[](pos)` (mutable and `const` overloads, identical bodies):
same check and result as `at`. -/
def opIndex (v : vector α) (pos : Nat) : Except VecError α × vector α :=
  if pos ≥ v.data.length then (.error .index_out_of_bound, v)
  else (.ok (v.data.getD pos default), v)

/-- Member `front()`: throw `container_is_empty` when `size_ == 0`, else return
`data_[0]`.  State is untouched by the body. -/
def front (v : vector α) : Except VecError α × vector α :=
  if v.data.length = 0 then (.error .container_is_empty, v)
  else (.ok (v.data.getD 0 default), v)

/-- Member `back()`: throw `container_is_empty` when `size_ == 0`, else return
`data_[size_ - 1]`. -/
def back (v : vector α) : Except VecError α × vector α :=
  if v.data.length = 0 then (.error .container_is_empty, v)
  else (.ok (v.data.getD (v.data.length - 1) default), v)

/-- Member `clear()`: destroys all `size_` live elements and sets `size_ = 0`;
`capacity_` and the buffer are untouched. -/
def clear (v : vector α) : vector α :=
  ⟨[], v.capacity⟩

/-- The capacity chosen by `insert`/`push_back` when growth is needed:
`capacity_ == 0 ? 1 : capacity_ * 2`. -/
def grow_capacity (c : Nat) : Nat :=
  if c = 0 then 1 else c * 2

/-- Member `pop_back()`: throw `container_is_empty` when `size_ == 0` (state
untouched, the check precedes everything), else destroy `data_[size_ - 1]`
and decrement `size_`. -/
def pop_back (v : vector α) : Option VecError × vector α :=
  if v.data.length = 0 then (some .container_is_empty, v)
  else (none, ⟨v.data.take (v.data.length - 1), v.capacity⟩)

/-- Member `push_back(value)`: when `size_ >= capacity_`, `reallocate` to
`grow_capacity capacity_` (which copy-constructs the live elements in order
into the fresh buffer, leaving the sequence unchanged); then copy-construct
`value` into slot `size_` and increment `size_`. -/
def push_back (v : vector α) (value : α) : vector α :=
  if v.data.length ≥ v.capacity then
    ⟨v.data ++ [value], grow_capacity v.capacity⟩
  else
    ⟨v.data ++ [value], v.capacity⟩

/-- The in-place shift loop of `insert` (non-reallocating branch):
`for (i = size_; i > ind; --i) data_[i] = data_[i - 1];`.  Fuel `f` is the
remaining iteration count; the iteration with fuel `f + 1` works on index
`i = ind + f + 1`. -/
def insertShift (ind : Nat) : List α → Nat → List α
  | l, 0 => l
  | l, f + 1 => insertShift ind (l.set (ind + f + 1) (l.getD (ind + f) default)) f

/-- Member `insert(ind, value)` (the index overload; the iterator overload merely
computes `ind = pos.ptr_ - data_` and delegates): throw `index_out_of_bound`
when `ind > size_`.  When `size_ >= capacity_`, build a fresh buffer holding
`data_[0..ind)`, then a copy of `value`, then `data_[ind..size_)` shifted one
slot right, and adopt it with the grown capacity.  Otherwise copy-construct
`value` into slot `size_`, run the backwards assignment shift loop, and
assign `value` at slot `ind`.  Either way `size_` grows by one and the
result is `iterator(data_ + ind, this)`, whose origin is the container's
identity `id`. -/
def insert (id : Nat) (v : vector α) (ind : Nat) (value : α) :
    Except VecError (vector α × iterator) :=
  if ind > v.data.length then .error .index_out_of_bound
  else if v.data.length ≥ v.capacity then
    .ok (⟨v.data.take ind ++ value :: v.data.drop ind, grow_capacity v.capacity⟩,
      ⟨(ind : Int), id⟩)
  else
    .ok (⟨(insertShift ind (v.data ++ [value]) (v.data.length - ind)).set ind value,
      v.capacity⟩, ⟨(ind : Int), id⟩)

/-- The left-shift loop of `erase`:
`for (i = ind; i < size_ - 1; ++i) data_[i] = data_[i + 1];`.  `i` is the
current index, fuel `f` the remaining iteration count. -/
def eraseShift : List α → Nat → Nat → List α
  | l, _, 0 => l
  | l, i, f + 1 => eraseShift (l.set i (l.getD (i + 1) default)) (i + 1) f

/-- Member `erase(ind)` (the index overload; the iterator overload delegates):
throw `index_out_of_bound` when `ind >= size_`; otherwise shift
`data_(ind..size_)` one slot left by the assignment loop, destroy the last
live slot, decrement `size_`, and return `iterator(data_ + ind, this)`. -/
def erase (id : Nat) (v : vector α) (ind : Nat) :
    Except VecError (vector α × iterator) :=
  if ind ≥ v.data.length then .error .index_out_of_bound
  else
    .ok (⟨(eraseShift v.data ind (v.data.length - 1 - ind)).take (v.data.length - 1),
      v.capacity⟩, ⟨(ind : Int), id⟩)

/-- Copy constructor `vector(const vector&)`: starts empty; when
`other.size_ > 0`, allocates a fresh buffer of exactly `other.size_` slots
(`capacity_ = other.size_`) and copy-constructs each element in index
order. -/
def copy (other : vector α) : vector α :=
  if other.data.length > 0 then ⟨other.data, other.data.length⟩
  else ⟨[], 0⟩

/-- Copy assignment `operator=`: when `this == &other` (the `same` flag),
return unchanged; otherwise destroy the current contents, release the
buffer, and rebuild exactly as the copy constructor does. -/
def assign (self other : vector α) (same : Bool) : vector α :=
  if same then self
  else if other.data.length > 0 then ⟨other.data, other.data.length⟩
  else ⟨[], 0⟩

/-- The element-region mutators of the container's public mutation surface,
as an operation language, used to quantify over "any operation". -/
inductive Op (α : Type) : Type where
  | push : α → Op α
  | ins : Nat → α → Op α
  | del : Nat → Op α
  | pop : Op α
  | clr : Op α

/-- Runs one mutator on a container.  A thrown exception leaves the caller's
container as it was (every check precedes any mutation in the source), so
the error cases keep the state. -/
def applyOp : Op α → vector α → vector α
  | .push x, v => v.push_back x
  | .ins i x, v =>
    match insert 0 v i x with
    | .ok (w, _) => w
    | .error _ => v
  | .del i, v =>
    match erase 0 v i with
    | .ok (w, _) => w
    | .error _ => v
  | .pop, v => (v.pop_back).2
  | .clr, v => v.clear

/-! ## Helper lemmas: normal forms of the shift loops

The backwards assignment loop of `insert` and the forwards assignment loop
of `erase` are characterized pointwise, then the full bodies are reduced to
`take`/`drop` normal forms. -/

theorem insertShift_length (ind : Nat) : ∀ (f : Nat) (l : List α),
    (insertShift ind l f).length = l.length := by
  intro f
  induction f with
  | zero => intro l; rw [insertShift]
  | succ f ih => intro l; rw [insertShift, ih, List.length_set]

theorem eraseShift_length : ∀ (f : Nat) (l : List α) (i : Nat),
    (eraseShift l i f).length = l.length := by
  intro f
  induction f with
  | zero => intro l i; rw [eraseShift]
  | succ f ih => intro l i; rw [eraseShift, ih, List.length_set]

theorem insertShift_getElem? (f : Nat) :
    ∀ (l : List α) (ind j : Nat), ind + f < l.length →
    (insertShift ind l f)[j]? =
      if ind < j ∧ j ≤ ind + f then l[j - 1]? else l[j]? := by
  induction f with
  | zero =>
    intro l ind j _
    rw [insertShift, if_neg (by omega)]
  | succ f ih =>
    intro l ind j h
    rw [insertShift]
    have hlen : ind + f < (l.set (ind + f + 1) (l.getD (ind + f) default)).length := by
      rw [List.length_set]; omega
    rw [ih _ ind j hlen]
    by_cases h1 : ind < j ∧ j ≤ ind + f
    · rw [if_pos h1, if_pos ⟨h1.1, by omega⟩, List.getElem?_set_ne (by omega)]
    · by_cases h2 : j = ind + f + 1
      · subst h2
        rw [if_neg h1, if_pos (by omega), List.getElem?_set]
        rw [if_pos rfl, if_pos (by omega)]
        have h3 : ind + f + 1 - 1 = ind + f := by omega
        rw [h3, List.getD_eq_getElem?_getD, List.getElem?_eq_getElem (by omega)]
        rfl
      · rw [if_neg h1, if_neg (by omega), List.getElem?_set_ne (by omega)]

theorem eraseShift_getElem? (f : Nat) :
    ∀ (l : List α) (i j : Nat), i + f < l.length →
    (eraseShift l i f)[j]? =
      if i ≤ j ∧ j < i + f then l[j + 1]? else l[j]? := by
  induction f with
  | zero =>
    intro l i j _
    rw [eraseShift, if_neg (by omega)]
  | succ f ih =>
    intro l i j h
    rw [eraseShift]
    have hlen : (i + 1) + f < (l.set i (l.getD (i + 1) default)).length := by
      rw [List.length_set]; omega
    rw [ih _ (i + 1) j hlen]
    by_cases h1 : i + 1 ≤ j ∧ j < i + 1 + f
    · rw [if_pos h1, if_pos (by omega), List.getElem?_set_ne (by omega)]
    · by_cases h2 : j = i
      · subst h2
        rw [if_neg h1, if_pos (by omega), List.getElem?_set]
        rw [if_pos rfl, if_pos (by omega)]
        rw [List.getD_eq_getElem?_getD, List.getElem?_eq_getElem (by omega)]
        rfl
      · rw [if_neg h1, if_neg (by omega), List.getElem?_set_ne (by omega)]

omit [Inhabited α] in
theorem take_cons_drop_getElem? (data : List α) (value : α) (ind j : Nat)
    (h : ind ≤ data.length) :
    (data.take ind ++ value :: data.drop ind)[j]? =
      if j < ind then data[j]? else if j = ind then some value else data[j - 1]? := by
  have htake : (data.take ind).length = ind := by
    rw [List.length_take]; omega
  rw [List.getElem?_append, htake]
  by_cases h1 : j < ind
  · simp only [if_pos h1]
    rw [List.getElem?_take, if_pos h1]
  · simp only [if_neg h1]
    by_cases h2 : j = ind
    · subst h2
      rw [Nat.sub_self, List.getElem?_cons_zero, if_pos rfl]
    · have h3 : j - ind = (j - ind - 1) + 1 := by omega
      rw [if_neg h2, h3, List.getElem?_cons_succ, List.getElem?_drop]
      congr 1
      omega

theorem insert_list_eq (data : List α) (value : α) (ind : Nat)
    (h : ind ≤ data.length) :
    (insertShift ind (data ++ [value]) (data.length - ind)).set ind value =
      data.take ind ++ value :: data.drop ind := by
  apply List.ext_getElem?
  intro j
  rw [take_cons_drop_getElem? data value ind j h]
  have hlen : (data ++ [value]).length = data.length + 1 := by
    rw [List.length_append, List.length_singleton]
  have hfuel : ind + (data.length - ind) < (data ++ [value]).length := by
    rw [hlen]; omega
  have hl2 : (insertShift ind (data ++ [value]) (data.length - ind)).length
      = data.length + 1 := by rw [insertShift_length, hlen]
  rw [List.getElem?_set]
  by_cases h2 : ind = j
  · subst h2
    rw [if_pos rfl, if_pos (by rw [hl2]; omega), if_neg (by omega), if_pos rfl]
  · rw [if_neg h2, insertShift_getElem? _ _ ind j hfuel]
    by_cases h1 : j < ind
    · rw [if_neg (by omega), if_pos h1, List.getElem?_append, if_pos (by omega)]
    · by_cases h4 : j ≤ data.length
      · rw [if_pos (by omega), if_neg h1, if_neg (fun a => h2 a.symm),
          List.getElem?_append, if_pos (by omega)]
      · rw [if_neg (by omega), if_neg h1, if_neg (fun a => h2 a.symm),
          List.getElem?_eq_none (by rw [hlen]; omega),
          List.getElem?_eq_none (by omega)]

theorem erase_list_eq (data : List α) (ind : Nat) (h : ind < data.length) :
    (eraseShift data ind (data.length - 1 - ind)).take (data.length - 1) =
      data.take ind ++ data.drop (ind + 1) := by
  apply List.ext_getElem?
  intro j
  rw [← List.eraseIdx_eq_take_drop_succ, List.getElem?_eraseIdx,
    List.getElem?_take]
  by_cases h1 : j < data.length - 1
  · rw [if_pos h1, eraseShift_getElem? _ _ ind j (by omega)]
    by_cases h2 : j < ind
    · rw [if_neg (by omega), if_pos h2]
    · rw [if_pos (by omega), if_neg h2]
  · rw [if_neg h1, if_neg (by omega), List.getElem?_eq_none (by omega)]

/-- The successful case of `insert` in `take`/`drop` normal form. -/
theorem insert_ok (id : Nat) (v : vector α) (ind : Nat) (value : α)
    (h : ind ≤ v.data.length) :
    insert id v ind value = .ok
      (⟨v.data.take ind ++ value :: v.data.drop ind,
        if v.data.length ≥ v.capacity then grow_capacity v.capacity
        else v.capacity⟩,
       ⟨(ind : Int), id⟩) := by
  rw [insert, if_neg (by omega)]
  by_cases hc : v.data.length ≥ v.capacity
  · rw [if_pos hc, if_pos hc]
  · rw [if_neg hc, if_neg hc, insert_list_eq v.data value ind h]

/-- The successful case of `erase` in `take`/`drop` normal form. -/
theorem erase_ok (id : Nat) (v : vector α) (ind : Nat)
    (h : ind < v.data.length) :
    erase id v ind = .ok
      (⟨v.data.take ind ++ v.data.drop (ind + 1), v.capacity⟩,
       ⟨(ind : Int), id⟩) := by
  rw [erase, if_neg (by omega), erase_list_eq v.data ind h]

theorem grow_capacity_eq_max (c : Nat) : grow_capacity c = max 1 (2 * c) := by
  rw [grow_capacity]
  by_cases hc : c = 0
  · subst hc; rfl
  · rw [if_neg hc]; omega

omit [Inhabited α] in
theorem push_back_data (v : vector α) (x : α) :
    (v.push_back x).data = v.data ++ [x] := by
  rw [push_back]
  by_cases hc : v.data.length ≥ v.capacity
  · rw [if_pos hc]
  · rw [if_neg hc]

omit [Inhabited α] in
theorem foldl_push_back_data (xs : List α) :
    ∀ v : vector α, (xs.foldl push_back v).data = v.data ++ xs := by
  induction xs with
  | nil => intro v; rw [List.foldl_nil, List.append_nil]
  | cons x xs ih =>
    intro v
    rw [List.foldl_cons, ih, push_back_data, List.append_assoc,
      List.singleton_append]

omit [Inhabited α] in
theorem insertIdx_eq_take_cons_drop (x : α) :
    ∀ (ind : Nat) (l : List α), ind ≤ l.length →
    l.insertIdx ind x = l.take ind ++ x :: l.drop ind := by
  intro ind
  induction ind with
  | zero =>
    intro l _
    rw [List.insertIdx_zero, List.take_zero, List.drop_zero, List.nil_append]
  | succ ind ih =>
    intro l h
    cases l with
    | nil => simp at h
    | cons a t =>
      rw [List.insertIdx_succ_cons, List.take_succ_cons, List.drop_succ_cons,
        List.cons_append, ih t (by simpa using h)]

theorem foldl_mutate_snd_fst (ops : List (Op α)) :
    ∀ p : vector α × vector α,
    (ops.foldl (fun q op => (q.1, applyOp op q.2)) p).1 = p.1 := by
  induction ops with
  | nil => intro p; rw [List.foldl_nil]
  | cons op ops ih => intro p; rw [List.foldl_cons, ih]

theorem foldl_mutate_fst_snd (ops : List (Op α)) :
    ∀ p : vector α × vector α,
    (ops.foldl (fun q op => (applyOp op q.1, q.2)) p).2 = p.2 := by
  induction ops with
  | nil => intro p; rw [List.foldl_nil]
  | cons op ops ih => intro p; rw [List.foldl_cons, ih]

/-! ## Claim theorems -/

/-- C1: for every container state with `0 ≤ index ≤ size` and every value
`v`, `insert(index, v)` raises OutOfBounds if `index > size`; otherwise it
shifts the elements at `[index, size)` one slot right (reallocating first
per the growth policy when `size == capacity`), places a copy of `v` at
slot `index`, increases `size` by 1, preserves the relative order of all
other elements, and returns a cursor designating the inserted element. -/
theorem insert_contract (id : Nat) (v : vector α) (ind : Nat) (value : α) :
    (ind > v.size → insert id v ind value = .error .index_out_of_bound) ∧
    (ind ≤ v.size → ∃ w : vector α,
      insert id v ind value = .ok (w, ⟨(ind : Int), id⟩) ∧
      w.data = v.data.take ind ++ value :: v.data.drop ind ∧
      w.size = v.size + 1 ∧
      (∀ j, j < ind → w.data[j]? = v.data[j]?) ∧
      w.data[ind]? = some value ∧
      (∀ j, ind ≤ j → j < v.size → w.data[j + 1]? = v.data[j]?)) := by
  constructor
  · intro hgt
    rw [insert, if_pos (show ind > v.data.length from hgt)]
  · intro hle
    have hle' : ind ≤ v.data.length := hle
    refine ⟨_, insert_ok id v ind value hle', rfl, ?_, ?_, ?_, ?_⟩
    · show (v.data.take ind ++ value :: v.data.drop ind).length = v.data.length + 1
      rw [List.length_append, List.length_cons, List.length_take,
        List.length_drop]
      omega
    · intro j hj
      show (v.data.take ind ++ value :: v.data.drop ind)[j]? = v.data[j]?
      rw [take_cons_drop_getElem? v.data value ind j hle', if_pos hj]
    · show (v.data.take ind ++ value :: v.data.drop ind)[ind]? = some value
      rw [take_cons_drop_getElem? v.data value ind ind hle',
        if_neg (lt_irrefl ind), if_pos rfl]
    · intro j hj1 hj2
      show (v.data.take ind ++ value :: v.data.drop ind)[j + 1]? = v.data[j]?
      rw [take_cons_drop_getElem? v.data value ind (j + 1) hle',
        if_neg (by omega), if_neg (by omega)]
      simp only [Nat.add_sub_cancel]

/-- Witness for C1: inserting 15 at index 1 of `[10, 20, 30]` succeeds with
the cursor at slot 1 and the sequence `[10, 15, 20, 30]`; inserting at
index 5 fails with OutOfBounds. -/
theorem insert_contract_witness :
    insert 7 (⟨[10, 20, 30], 4⟩ : vector Nat) 5 15 =
      .error .index_out_of_bound ∧
    ∃ w : vector Nat,
      insert 7 (⟨[10, 20, 30], 4⟩ : vector Nat) 1 15 =
        .ok (w, ⟨(1 : Int), 7⟩) ∧
      w.data = [10, 15, 20, 30] := by
  constructor
  · exact (insert_contract 7 (⟨[10, 20, 30], 4⟩ : vector Nat) 5 15).1
      (by decide)
  · obtain ⟨w, hw, hdata, -⟩ :=
      (insert_contract 7 (⟨[10, 20, 30], 4⟩ : vector Nat) 1 15).2 (by decide)
    exact ⟨w, hw, by rw [hdata]; rfl⟩

/-- C2: for every container state and index, `erase(index)` raises
OutOfBounds if `index ≥ size`; otherwise it shifts the elements at
`(index, size)` one slot left, decreases `size` by 1, preserves the
relative order of all remaining elements, and returns a cursor to the
element now at slot `index` — which is the end cursor when the erased
element was the last one. -/
theorem erase_contract (id : Nat) (v : vector α) (ind : Nat) :
    (ind ≥ v.size → erase id v ind = .error .index_out_of_bound) ∧
    (ind < v.size → ∃ w : vector α,
      erase id v ind = .ok (w, ⟨(ind : Int), id⟩) ∧
      w.data = v.data.take ind ++ v.data.drop (ind + 1) ∧
      w.size = v.size - 1 ∧
      (∀ j, j < ind → w.data[j]? = v.data[j]?) ∧
      (∀ j, ind ≤ j → j + 1 < v.size → w.data[j]? = v.data[j + 1]?) ∧
      (ind + 1 = v.size → (⟨(ind : Int), id⟩ : iterator) = end' id w)) := by
  constructor
  · intro hge
    rw [erase, if_pos (show ind ≥ v.data.length from hge)]
  · intro hlt
    have hlt' : ind < v.data.length := hlt
    have herase : v.data.take ind ++ v.data.drop (ind + 1) =
        v.data.eraseIdx ind := (List.eraseIdx_eq_take_drop_succ v.data ind).symm
    have hlen : (v.data.take ind ++ v.data.drop (ind + 1)).length =
        v.data.length - 1 := by
      rw [List.length_append, List.length_take, List.length_drop]
      omega
    refine ⟨_, erase_ok id v ind hlt', rfl, ?_, ?_, ?_, ?_⟩
    · exact hlen
    · intro j hj
      show (v.data.take ind ++ v.data.drop (ind + 1))[j]? = v.data[j]?
      rw [herase, List.getElem?_eraseIdx, if_pos hj]
    · intro j hj1 hj2
      show (v.data.take ind ++ v.data.drop (ind + 1))[j]? = v.data[j + 1]?
      rw [herase, List.getElem?_eraseIdx, if_neg (by omega)]
    · intro hlast
      have hlast' : ind + 1 = v.data.length := hlast
      have hwlen :
          ((⟨v.data.take ind ++ v.data.drop (ind + 1), v.capacity⟩ :
            vector α)).data.length = ind := by
        show (v.data.take ind ++ v.data.drop (ind + 1)).length = ind
        rw [hlen]; omega
      rw [end', hwlen]

/-- Witness for C2: erasing index 0 of `[10, 15, 20, 30]` succeeds and
yields `[15, 20, 30]` with the cursor at slot 0; erasing index 4 fails
with OutOfBounds. -/
theorem erase_contract_witness :
    erase 3 (⟨[10, 15, 20, 30], 4⟩ : vector Nat) 4 =
      .error .index_out_of_bound ∧
    ∃ w : vector Nat,
      erase 3 (⟨[10, 15, 20, 30], 4⟩ : vector Nat) 0 =
        .ok (w, ⟨(0 : Int), 3⟩) ∧
      w.data = [15, 20, 30] := by
  constructor
  · exact (erase_contract 3 (⟨[10, 15, 20, 30], 4⟩ : vector Nat) 4).1
      (by decide)
  · obtain ⟨w, hw, hdata, -⟩ :=
      (erase_contract 3 (⟨[10, 15, 20, 30], 4⟩ : vector Nat) 0).2 (by decide)
    exact ⟨w, hw, by rw [hdata]; rfl⟩

/-- C3: for every sequence of N `push_back` calls starting from the empty
container, `size()` afterwards equals N, and indexed access at each index
`i < N` returns the value supplied by the i-th `push_back` call, in
order. -/
theorem push_back_sequence (xs : List α) :
    (xs.foldl push_back (mk0 : vector α)).data = xs ∧
    (xs.foldl push_back (mk0 : vector α)).size = xs.length ∧
    (∀ i, i < xs.length →
      ((xs.foldl push_back (mk0 : vector α)).at' i).1 =
        .ok (xs.getD i default)) := by
  have hdata : (xs.foldl push_back (mk0 : vector α)).data = xs := by
    rw [foldl_push_back_data, mk0, List.nil_append]
  refine ⟨hdata, ?_, ?_⟩
  · show (xs.foldl push_back (mk0 : vector α)).data.length = xs.length
    rw [hdata]
  · intro i hi
    rw [at', hdata]
    rw [if_neg (by omega)]

/-- Witness for C3: pushing `[10, 20, 30]` gives size 3 and access at
index 1 returns 20. -/
theorem push_back_sequence_witness :
    ([10, 20, 30].foldl push_back (mk0 : vector Nat)).size = 3 ∧
    (([10, 20, 30].foldl push_back (mk0 : vector Nat)).at' 1).1 =
      .ok 20 :=
  ⟨(push_back_sequence [10, 20, 30]).2.1,
   (push_back_sequence [10, 20, 30]).2.2 1 (by decide)⟩

/-- C4: for every container, every index with `0 ≤ i ≤ size`, and every
value `v`, performing `insert(i, v)` and then `erase(i)` leaves the
container's element sequence (and size) exactly as it was before the pair
of operations. -/
theorem insert_erase_roundtrip (id id' : Nat) (v : vector α) (ind : Nat)
    (value : α) (h : ind ≤ v.size) :
    ∃ (w u : vector α) (it it' : iterator),
      insert id v ind value = .ok (w, it) ∧
      erase id' w ind = .ok (u, it') ∧
      u.data = v.data ∧ u.size = v.size := by
  have h' : ind ≤ v.data.length := h
  have hwlen : ind < (v.data.take ind ++ value :: v.data.drop ind).length := by
    rw [List.length_append, List.length_cons, List.length_take]
    omega
  have hins := insert_ok id v ind value h'
  have hera := erase_ok id'
    (⟨v.data.take ind ++ value :: v.data.drop ind,
      if v.data.length ≥ v.capacity then grow_capacity v.capacity
      else v.capacity⟩ : vector α) ind hwlen
  have hback : (v.data.take ind ++ value :: v.data.drop ind).take ind ++
      (v.data.take ind ++ value :: v.data.drop ind).drop (ind + 1) = v.data := by
    rw [← insertIdx_eq_take_cons_drop value ind v.data h',
      ← List.eraseIdx_eq_take_drop_succ, List.eraseIdx_insertIdx]
  refine ⟨_, _, _, _, hins, hera, hback, ?_⟩
  show ((v.data.take ind ++ value :: v.data.drop ind).take ind ++
      (v.data.take ind ++ value :: v.data.drop ind).drop (ind + 1)).length =
    v.data.length
  rw [hback]

/-- Witness for C4: inserting 15 at index 1 of `[10, 20, 30]` and erasing
index 1 restores the sequence `[10, 20, 30]`. -/
theorem insert_erase_roundtrip_witness :
    ∃ (w u : vector Nat) (it it' : iterator),
      insert 2 (⟨[10, 20, 30], 4⟩ : vector Nat) 1 15 = .ok (w, it) ∧
      erase 2 w 1 = .ok (u, it') ∧
      u.data = [10, 20, 30] :=
  match insert_erase_roundtrip 2 2 (⟨[10, 20, 30], 4⟩ : vector Nat) 1 15
      (by decide) with
  | ⟨w, u, it, it', h1, h2, h3, _⟩ => ⟨w, u, it, it', h1, h2, h3⟩

/-- C5: indexed access (`at` and `operator[]`, mutable and read-only)
raises OutOfBounds if and only if the supplied index satisfies
`index ≥ size` (for every size, including 0), returns element `i`
otherwise, and when the error is raised the container's state is left
completely unchanged, the check preceding any mutation. -/
theorem indexed_access_contract (v : vector α) (pos : Nat) :
    (((v.at' pos).1 = .error .index_out_of_bound ↔ pos ≥ v.size) ∧
     (pos < v.size → (v.at' pos).1 = .ok (v.data.getD pos default)) ∧
     (v.at' pos).2 = v) ∧
    (((v.opIndex pos).1 = .error .index_out_of_bound ↔ pos ≥ v.size) ∧
     (pos < v.size → (v.opIndex pos).1 = .ok (v.data.getD pos default)) ∧
     (v.opIndex pos).2 = v) := by
  have hsz : v.size = v.data.length := rfl
  constructor
  · rw [at']
    by_cases h : pos ≥ v.data.length
    · rw [if_pos h]
      exact ⟨⟨fun _ => hsz ▸ h, fun _ => rfl⟩, fun hlt => by omega, rfl⟩
    · rw [if_neg h]
      exact ⟨⟨fun hc => by exact absurd hc (by simp), fun hge => by omega⟩,
        fun _ => rfl, rfl⟩
  · rw [opIndex]
    by_cases h : pos ≥ v.data.length
    · rw [if_pos h]
      exact ⟨⟨fun _ => hsz ▸ h, fun _ => rfl⟩, fun hlt => by omega, rfl⟩
    · rw [if_neg h]
      exact ⟨⟨fun hc => by exact absurd hc (by simp), fun hge => by omega⟩,
        fun _ => rfl, rfl⟩

/-- Witness for C5: on `[10, 20, 30]`, access at index 1 returns 20 and
access at index 3 raises OutOfBounds; the state is unchanged. -/
theorem indexed_access_contract_witness :
    ((⟨[10, 20, 30], 4⟩ : vector Nat).at' 1).1 = .ok 20 ∧
    ((⟨[10, 20, 30], 4⟩ : vector Nat).at' 3).1 =
      .error .index_out_of_bound ∧
    ((⟨[10, 20, 30], 4⟩ : vector Nat).opIndex 3).2 =
      (⟨[10, 20, 30], 4⟩ : vector Nat) :=
  ⟨(indexed_access_contract (⟨[10, 20, 30], 4⟩ : vector Nat) 1).1.2.1
      (by decide),
   (indexed_access_contract (⟨[10, 20, 30], 4⟩ : vector Nat) 3).1.1.2
      (by decide),
   (indexed_access_contract (⟨[10, 20, 30], 4⟩ : vector Nat) 3).2.2.2⟩

/-- C6: `front`, `back`, and `pop_back` raise EmptyContainer if and only
if `size == 0`, and in that case cause no state change; otherwise `front`
returns element 0, `back` returns element `size - 1`, and `pop_back`
decreases `size` by 1, leaving all other elements and the capacity
unchanged. -/
theorem empty_error_contract (v : vector α) :
    (((v.front).1 = .error .container_is_empty ↔ v.size = 0) ∧
     (0 < v.size → (v.front).1 = .ok (v.data.getD 0 default)) ∧
     (v.front).2 = v) ∧
    (((v.back).1 = .error .container_is_empty ↔ v.size = 0) ∧
     (0 < v.size → (v.back).1 = .ok (v.data.getD (v.size - 1) default)) ∧
     (v.back).2 = v) ∧
    (((v.pop_back).1 = some .container_is_empty ↔ v.size = 0) ∧
     (v.size = 0 → (v.pop_back).2 = v) ∧
     (0 < v.size →
       (v.pop_back).1 = none ∧
       (v.pop_back).2.data = v.data.take (v.size - 1) ∧
       (v.pop_back).2.size = v.size - 1 ∧
       (v.pop_back).2.capacity = v.capacity)) := by
  have hsz : v.size = v.data.length := rfl
  by_cases h : v.data.length = 0
  · rw [front, back, pop_back, if_pos h, if_pos h, if_pos h]
    exact ⟨⟨⟨fun _ => hsz ▸ h, fun _ => rfl⟩, fun hlt => by omega, rfl⟩,
      ⟨⟨fun _ => hsz ▸ h, fun _ => rfl⟩, fun hlt => by omega, rfl⟩,
      ⟨fun _ => hsz ▸ h, fun _ => rfl⟩, fun _ => rfl, fun hlt => by omega⟩
  · rw [front, back, pop_back, if_neg h, if_neg h, if_neg h]
    refine ⟨⟨⟨fun hc => absurd hc (by simp), fun h0 => by omega⟩,
      fun _ => rfl, rfl⟩,
      ⟨⟨fun hc => absurd hc (by simp), fun h0 => by omega⟩,
      fun _ => rfl, rfl⟩,
      ⟨fun hc => absurd hc (by simp), fun h0 => by omega⟩,
      fun h0 => by omega, fun _ => ⟨rfl, rfl, ?_, rfl⟩⟩
    show (v.data.take (v.data.length - 1)).length = v.data.length - 1
    rw [List.length_take]
    omega

/-- Witness for C6: on `[10, 20, 30]`, `front` returns 10, `back` returns
30 and `pop_back` yields `[10, 20]`; on the empty container all three
raise EmptyContainer, leaving the state unchanged. -/
theorem empty_error_contract_witness :
    ((⟨[10, 20, 30], 4⟩ : vector Nat).front).1 = .ok 10 ∧
    ((⟨[10, 20, 30], 4⟩ : vector Nat).back).1 = .ok 30 ∧
    ((⟨[10, 20, 30], 4⟩ : vector Nat).pop_back).2.data = [10, 20] ∧
    ((⟨[], 0⟩ : vector Nat).front).1 = .error .container_is_empty ∧
    ((⟨[], 0⟩ : vector Nat).pop_back).2 = (⟨[], 0⟩ : vector Nat) := by
  refine ⟨(empty_error_contract (⟨[10, 20, 30], 4⟩ : vector Nat)).1.2.1
      (by decide), ?_, ?_,
    ((empty_error_contract (⟨[], 0⟩ : vector Nat)).1.1).2 (by decide),
    (empty_error_contract (⟨[], 0⟩ : vector Nat)).2.2.2.1 (by decide)⟩
  · have := (empty_error_contract (⟨[10, 20, 30], 4⟩ : vector Nat)).2.1.2.1
      (by decide)
    exact this
  · have := ((empty_error_contract
      (⟨[10, 20, 30], 4⟩ : vector Nat)).2.2.2.2 (by decide)).2.1
    rw [this]
    rfl

/-- C7: whenever a mutating operation (`push_back` or `insert`) finds
capacity exhausted (`size == capacity`), the new capacity it adopts is
exactly `max(1, 2 × current capacity)`; and no element-region operation
ever decreases capacity — `erase`, `pop_back`, and `clear` leave capacity
unchanged. -/
theorem growth_policy_contract (v : vector α) (x : α) (ind : Nat) (id : Nat) :
    (v.size = v.capacity →
      (v.push_back x).capacity = max 1 (2 * v.capacity)) ∧
    (v.size = v.capacity → ind ≤ v.size → ∃ w it,
      insert id v ind x = .ok (w, it) ∧
      w.capacity = max 1 (2 * v.capacity)) ∧
    (ind < v.size → ∃ w it,
      erase id v ind = .ok (w, it) ∧ w.capacity = v.capacity) ∧
    ((v.pop_back).2.capacity = v.capacity) ∧
    ((v.clear).capacity = v.capacity) ∧
    (∀ op : Op α, v.capacity ≤ (applyOp op v).capacity) := by
  have hgrow : ∀ c : Nat, c ≤ grow_capacity c := by
    intro c
    rw [grow_capacity_eq_max]
    omega
  refine ⟨?_, ?_, ?_, ?_, ?_, ?_⟩
  · intro h
    rw [push_back, if_pos (show v.data.length ≥ v.capacity by
      rw [← h]; exact le_refl _)]
    exact grow_capacity_eq_max v.capacity
  · intro h hle
    refine ⟨_, _, insert_ok id v ind x hle, ?_⟩
    show (if v.data.length ≥ v.capacity then grow_capacity v.capacity
      else v.capacity) = max 1 (2 * v.capacity)
    rw [if_pos (show v.data.length ≥ v.capacity by rw [← h]; exact le_refl _),
      grow_capacity_eq_max]
  · intro hlt
    exact ⟨_, _, erase_ok id v ind hlt, rfl⟩
  · rw [pop_back]
    by_cases h : v.data.length = 0
    · rw [if_pos h]
    · rw [if_neg h]
  · rfl
  · intro op
    cases op with
    | push y =>
      show v.capacity ≤ (v.push_back y).capacity
      rw [push_back]
      by_cases hc : v.data.length ≥ v.capacity
      · rw [if_pos hc]
        exact hgrow v.capacity
      · rw [if_neg hc]
    | ins i y =>
      show v.capacity ≤ (applyOp (Op.ins i y) v).capacity
      by_cases hi : i ≤ v.data.length
      · rw [applyOp, insert_ok 0 v i y hi]
        show v.capacity ≤
          if v.data.length ≥ v.capacity then grow_capacity v.capacity
          else v.capacity
        by_cases hc : v.data.length ≥ v.capacity
        · rw [if_pos hc]
          exact hgrow v.capacity
        · rw [if_neg hc]
      · rw [applyOp, show insert 0 v i y = .error .index_out_of_bound from by
          rw [insert, if_pos (by omega)]]
    | del i =>
      show v.capacity ≤ (applyOp (Op.del i) v).capacity
      by_cases hi : i < v.data.length
      · rw [applyOp, erase_ok 0 v i hi]
      · rw [applyOp, show erase 0 v i = .error .index_out_of_bound from by
          rw [erase, if_pos (by omega)]]
    | pop =>
      show v.capacity ≤ (v.pop_back).2.capacity
      rw [pop_back]
      by_cases h : v.data.length = 0
      · rw [if_pos h]
      · rw [if_neg h]
    | clr =>
      show v.capacity ≤ (v.clear).capacity
      rw [clear]

/-- Witness for C7: pushing onto a full container of capacity 2 doubles it
to 4; inserting into a full container of capacity 0 grows it to 1; erasing
keeps capacity 4. -/
theorem growth_policy_contract_witness :
    ((⟨[10, 20], 2⟩ : vector Nat).push_back 30).capacity = 4 ∧
    (∃ w it, insert 0 (⟨[], 0⟩ : vector Nat) 0 5 = .ok (w, it) ∧
      w.capacity = 1) ∧
    (∃ w it, erase 0 (⟨[10, 20], 4⟩ : vector Nat) 0 = .ok (w, it) ∧
      w.capacity = 4) :=
  ⟨(growth_policy_contract (⟨[10, 20], 2⟩ : vector Nat) 30 0 0).1 (by decide),
   (growth_policy_contract (⟨[], 0⟩ : vector Nat) 5 0 0).2.1 (by decide)
     (by decide),
   (growth_policy_contract (⟨[10, 20], 4⟩ : vector Nat) 30 0 0).2.2.1
     (by decide)⟩

omit [Inhabited α] in
/-- C8: cursor subtraction (for both the mutable and the read-only cursor)
raises IncompatibleCursors if and only if the two cursors carry different
origin containers; otherwise it returns the signed slot distance between
their positions, and `end() - begin()` on any container equals
`size()`. -/
theorem cursor_difference_contract (a b : iterator) (c d : const_iterator)
    (id : Nat) (v : vector α) :
    (a.sub b = .error .invalid_iterator ↔ a.vec ≠ b.vec) ∧
    (a.vec = b.vec → a.sub b = .ok (a.ptr - b.ptr)) ∧
    (c.sub d = .error .invalid_iterator ↔ c.vec ≠ d.vec) ∧
    (c.vec = d.vec → c.sub d = .ok (c.ptr - d.ptr)) ∧
    (end' id v).sub (begin id v) = .ok ((v.size : Int)) ∧
    (cend id v).sub (cbegin id v) = .ok ((v.size : Int)) := by
  refine ⟨?_, ?_, ?_, ?_, ?_, ?_⟩
  · rw [iterator.sub]
    by_cases h : a.vec = b.vec
    · rw [if_neg (by simpa using h)]
      exact ⟨fun hc => absurd hc (by simp), fun hne => absurd h hne⟩
    · rw [if_pos h]
      exact ⟨fun _ => h, fun _ => rfl⟩
  · intro h
    rw [iterator.sub, if_neg (by simpa using h)]
  · rw [const_iterator.sub]
    by_cases h : c.vec = d.vec
    · rw [if_neg (by simpa using h)]
      exact ⟨fun hc => absurd hc (by simp), fun hne => absurd h hne⟩
    · rw [if_pos h]
      exact ⟨fun _ => h, fun _ => rfl⟩
  · intro h
    rw [const_iterator.sub, if_neg (by simpa using h)]
  · rw [end', begin, iterator.sub, if_neg (by simp)]
    rw [Int.sub_zero]
    rfl
  · rw [cend, cbegin, const_iterator.sub, if_neg (by simp)]
    rw [Int.sub_zero]
    rfl

/-- Witness for C8: subtracting a cursor of container 1 from a cursor of
container 2 raises IncompatibleCursors; with the same origin the distance
is returned, and `end() - begin()` of a 3-element container is 3. -/
theorem cursor_difference_contract_witness :
    (⟨5, 2⟩ : iterator).sub ⟨1, 1⟩ = .error .invalid_iterator ∧
    (⟨5, 2⟩ : iterator).sub ⟨1, 2⟩ = .ok 4 ∧
    (end' 9 (⟨[10, 20, 30], 4⟩ : vector Nat)).sub
      (begin 9 (⟨[10, 20, 30], 4⟩ : vector Nat)) = .ok 3 :=
  ⟨(cursor_difference_contract (⟨5, 2⟩ : iterator) ⟨1, 1⟩ ⟨0, 0⟩ ⟨0, 0⟩ 9
      (⟨[10, 20, 30], 4⟩ : vector Nat)).1.mpr (by decide),
   (cursor_difference_contract (⟨5, 2⟩ : iterator) ⟨1, 2⟩ ⟨0, 0⟩ ⟨0, 0⟩ 9
      (⟨[10, 20, 30], 4⟩ : vector Nat)).2.1 rfl,
   (cursor_difference_contract (⟨5, 2⟩ : iterator) ⟨1, 2⟩ ⟨0, 0⟩ ⟨0, 0⟩ 9
      (⟨[10, 20, 30], 4⟩ : vector Nat)).2.2.2.2.1⟩

/-- C9: copy construction and copy assignment produce a container whose
element sequence equals the source's at the moment of copy, with capacity
pinned exactly to the source's size; and subsequently mutating either
container does not affect the other's element sequence (deep-copy
isolation, expressed over the two-container world in which each operation
targets exactly one of the pair — the copy owns a fresh buffer into which
every element was copy-constructed, so the model gives the copy and the
source independent states). -/
theorem deep_copy_contract (v other : vector α) :
    ((copy other).data = other.data ∧ (copy other).capacity = other.size) ∧
    ((assign v other false).data = other.data ∧
      (assign v other false).capacity = other.size) ∧
    (∀ (c : vector α) (ops : List (Op α)),
      (ops.foldl (fun q op => (q.1, applyOp op q.2)) (c, copy c)).1 = c) ∧
    (∀ (c : vector α) (ops : List (Op α)),
      (ops.foldl (fun q op => (applyOp op q.1, q.2)) (copy c, c)).2 = c) := by
  have hcopy : (copy other).data = other.data ∧
      (copy other).capacity = other.size := by
    rw [copy]
    by_cases h : other.data.length > 0
    · rw [if_pos h]
      exact ⟨rfl, rfl⟩
    · rw [if_neg h]
      have h0 : other.data.length = 0 := by omega
      exact ⟨(List.length_eq_zero.mp h0).symm,
        show (0 : Nat) = other.data.length by omega⟩
  refine ⟨hcopy, ?_, fun c ops => foldl_mutate_snd_fst ops (c, copy c),
    fun c ops => foldl_mutate_fst_snd ops (copy c, c)⟩
  rw [assign, if_neg (by simp)]
  by_cases h : other.data.length > 0
  · rw [if_pos h]
    exact ⟨rfl, rfl⟩
  · rw [if_neg h]
    have h0 : other.data.length = 0 := by omega
    exact ⟨(List.length_eq_zero.mp h0).symm,
      show (0 : Nat) = other.data.length by omega⟩

/-- Witness for C9: copying `[10, 20, 30]` of capacity 7 yields the same
sequence with capacity pinned to 3, and pushing 99 onto the copy leaves
the source unchanged. -/
theorem deep_copy_contract_witness :
    (copy (⟨[10, 20, 30], 7⟩ : vector Nat)).data = [10, 20, 30] ∧
    (copy (⟨[10, 20, 30], 7⟩ : vector Nat)).capacity = 3 ∧
    ([Op.push 99].foldl (fun q op => (q.1, applyOp op q.2))
      ((⟨[10, 20, 30], 7⟩ : vector Nat),
       copy (⟨[10, 20, 30], 7⟩ : vector Nat))).1 =
      (⟨[10, 20, 30], 7⟩ : vector Nat) :=
  ⟨(deep_copy_contract (⟨[], 0⟩ : vector Nat)
      (⟨[10, 20, 30], 7⟩ : vector Nat)).1.1,
   (deep_copy_contract (⟨[], 0⟩ : vector Nat)
      (⟨[10, 20, 30], 7⟩ : vector Nat)).1.2,
   (deep_copy_contract (⟨[], 0⟩ : vector Nat)
      (⟨[10, 20, 30], 7⟩ : vector Nat)).2.2.1
      (⟨[10, 20, 30], 7⟩ : vector Nat) [Op.push 99]⟩

omit [Inhabited α] in
/-- C10: assigning a container to itself (copy assignment where source and
target are the same object, which the source detects through the
`this == &other` check) leaves the container completely unchanged: same
element sequence, same size, and same capacity. -/
theorem self_assignment_identity (v : vector α) :
    assign v v true = v ∧
    (assign v v true).data = v.data ∧
    (assign v v true).size = v.size ∧
    (assign v v true).capacity = v.capacity := by
  have h : assign v v true = v := by
    rw [assign, if_pos rfl]
  exact ⟨h, by rw [h], by rw [h], by rw [h]⟩

end vector

end sjtu
